import Mathlib

/-
A shallow embedding, in Lean 4, of the metrics-extraction program
`PolyPilot/Resources/LlmEfficiency/extract_session_metrics.py`, together
with theorems settling the specification claims about it.

Conventions of the embedding:
* Python `int` values become `Int` (or `Nat` where the source only ever
  produces non-negative counts); Python floats used for prices and rates
  become exact rationals `ℚ`.
* Python `round(x, k)` (round-half-to-even) becomes `roundTo k` built on
  `rhe`, an exact half-to-even rounding on `ℚ`.
* Python strings processed character by character become `List Char`;
  strings only compared for equality or order stay `String`.
* The mutable accumulation loops of the source become folds over explicit
  state values.
-/

/-! ## Rounding: Python `round(x, k)` as exact half-to-even rounding on `ℚ` -/

/-- Round a rational to the nearest integer, ties going to the even
integer (the rounding mode of Python's builtin `round`). -/
def rhe (x : ℚ) : ℤ :=
  if x - ⌊x⌋ < (1 : ℚ) / 2 then ⌊x⌋
  else if (1 : ℚ) / 2 < x - ⌊x⌋ then ⌊x⌋ + 1
  else if Even ⌊x⌋ then ⌊x⌋ else ⌊x⌋ + 1

/-- Python `round(x, k)` on exact rationals. -/
def roundTo (k : ℕ) (x : ℚ) : ℚ :=
  ((rhe (x * 10 ^ k) : ℤ) : ℚ) / 10 ^ k

/-! ## CostModel (`MODEL_PRICING`, `DEFAULT_PRICING`, `compute_cost`) -/

/-- One row of the static price table: USD per million tokens. -/
structure Pricing where
  input : ℚ
  output : ℚ
  cached_input : ℚ
deriving DecidableEq

/-- The static price table `MODEL_PRICING` of the source, rates written as
exact rationals (`1.50 = 3/2`, `0.30 = 3/10`, ...). -/
def MODEL_PRICING : List (String × Pricing) :=
  [ ("claude-opus-4.6", ⟨15, 75, 3/2⟩),
    ("claude-opus-4.5", ⟨15, 75, 3/2⟩),
    ("claude-sonnet-4.6", ⟨3, 15, 3/10⟩),
    ("claude-sonnet-4.5", ⟨3, 15, 3/10⟩),
    ("claude-sonnet-4", ⟨3, 15, 3/10⟩),
    ("claude-haiku-4.5", ⟨4/5, 4, 2/25⟩),
    ("gpt-5.3-codex", ⟨2, 8, 1/2⟩),
    ("gpt-5.2-codex", ⟨2, 8, 1/2⟩),
    ("gpt-5.2", ⟨2, 8, 1/2⟩),
    ("gpt-5.1-codex-max", ⟨2, 8, 1/2⟩),
    ("gpt-5.1-codex", ⟨2, 8, 1/2⟩),
    ("gpt-5.1", ⟨2, 8, 1/2⟩),
    ("gpt-5.1-codex-mini", ⟨2/5, 8/5, 1/10⟩),
    ("gpt-5-mini", ⟨2/5, 8/5, 1/10⟩),
    ("gpt-4.1", ⟨2, 8, 1/2⟩),
    ("gemini-3-pro-preview", ⟨5/4, 10, 31/100⟩) ]

/-- Fallback pricing for unknown models. -/
def DEFAULT_PRICING : Pricing := ⟨3, 15, 3/10⟩

/-- Python `MODEL_PRICING.get(model, DEFAULT_PRICING)`. -/
def pricingFor (model : String) : Pricing :=
  match MODEL_PRICING.find? (fun p => p.1 == model) with
  | some p => p.2
  | none => DEFAULT_PRICING

/-- The function `compute_cost` of the source: non-cached input is
`max(0, input_tokens - cache_read_tokens)`; the three per-category costs
are summed and rounded to 6 decimal places. -/
def compute_cost (input_tokens output_tokens cache_read_tokens : ℤ)
    (model : String) : ℚ :=
  let pricing := pricingFor model
  let fresh_input : ℤ := max 0 (input_tokens - cache_read_tokens)
  roundTo 6
    (((fresh_input : ℚ) * pricing.input / 1000000)
      + ((cache_read_tokens : ℚ) * pricing.cached_input / 1000000)
      + ((output_tokens : ℚ) * pricing.output / 1000000))

/-- The cost formula exactly as the specification words it:
`(freshInput*inputRate + cacheRead*cachedInputRate + output*outputRate) / 1,000,000`,
rounded to 6 decimal places. Stated separately from `compute_cost` so the
two can be compared. -/
def cost_spec_formula (input_tokens output_tokens cache_read_tokens : ℤ)
    (model : String) : ℚ :=
  let pricing := pricingFor model
  let fresh_input : ℤ := max 0 (input_tokens - cache_read_tokens)
  roundTo 6
    (((fresh_input : ℚ) * pricing.input
        + (cache_read_tokens : ℚ) * pricing.cached_input
        + (output_tokens : ℚ) * pricing.output) / 1000000)

/-! ## LLMCall records and the aggregator's cache-hit-rate computation -/

/-- One LLM call record, as assembled by `parse_process_log` (absent
numeric fields default to zero there, so counts are `Nat`). -/
structure LlmCall where
  model : String
  initiator : String
  api_call_id : String
  input_tokens : ℕ
  output_tokens : ℕ
  cache_read_tokens : ℕ
  cache_write_tokens : ℕ
  duration_ms : ℕ
deriving DecidableEq

/-- Python `total_input = sum(c["input_tokens"] for c in llm_calls)`. -/
def total_input_tokens (calls : List LlmCall) : ℕ :=
  (calls.map (fun c => c.input_tokens)).sum

/-- Python `total_cache_read = sum(c["cache_read_tokens"] for c in llm_calls)`. -/
def total_cache_read_tokens (calls : List LlmCall) : ℕ :=
  (calls.map (fun c => c.cache_read_tokens)).sum

/-- Python `cache_hit_rate = (total_cache_read / total_input * 100) if total_input > 0 else 0`. -/
def cache_hit_rate (calls : List LlmCall) : ℚ :=
  if 0 < total_input_tokens calls then
    (total_cache_read_tokens calls : ℚ) / (total_input_tokens calls : ℚ) * 100
  else 0

/-- Python `round(cache_hit_rate, 1)`, the value reported as `cache_hit_rate_pct`. -/
def cache_hit_rate_pct (calls : List LlmCall) : ℚ :=
  roundTo 1 (cache_hit_rate calls)

/-! ## EventStreamParser (`parse_events`)

The mutable accumulation state of `parse_events` relevant to the claims:
the current open turn, the turn list, the user-message list and the
compaction list.  Event types that touch none of these fields
(`session.start`, tool events, subagents, counters, unknown types) are
represented by a single `unhandled` constructor, since they leave this
state unchanged. -/

/-- A turn record (`assistant.turn_start` ... `assistant.turn_end`). -/
structure Turn where
  turnId : String
  startTime : String
  endTime : Option String
  tool_calls : List String
  message_count : ℕ
deriving DecidableEq

/-- A compaction record (`session.compaction_start` / `_complete`). -/
structure Compaction where
  startTime : String
  endTime : Option String
  preTokens : Option ℤ
  success : Option Bool
deriving DecidableEq

/-- A user-message record (`user.message`). -/
structure UserMsg where
  content_preview : String
  timestamp : String
  full_length : ℕ
deriving DecidableEq

/-- The event-stream alphabet, restricted to the event types acting on
the state above. -/
inductive Event where
  | userMessage (ts content : String)
  | turnStart (ts turnId : String)
  | turnEnd (ts : String)
  | assistantMessage (ts : String) (toolRequests : List String)
  | compactionStart (ts : String)
  | compactionComplete (ts : String) (preTokens : Option ℤ) (success : Bool)
  | unhandled (ts : String)
deriving DecidableEq

/-- Accumulation state of one `parse_events` run. -/
structure ParseState where
  current_turn : Option Turn
  turns : List Turn
  user_messages : List UserMsg
  compactions : List Compaction
deriving DecidableEq

def initState : ParseState := ⟨none, [], [], []⟩

/-- Handling of `session.compaction_complete`: the source inspects only
`events["compactions"][-1]` and mutates it in place when its end time is
still unset. -/
def compactionCompleteStep (ts : String) (pre : Option ℤ) (succ : Bool)
    (l : List Compaction) : List Compaction :=
  match l.getLast? with
  | none => l
  | some last =>
      if last.endTime = none then
        l.dropLast ++ [{ last with endTime := some ts, preTokens := pre, success := some succ }]
      else l

/-- The updated open turn after one `assistant.message` event. -/
def bumpTurn (t : Turn) (reqs : List String) : Turn :=
  { t with message_count := t.message_count + 1, tool_calls := t.tool_calls ++ reqs }

/-- One iteration of the `parse_events` event loop. -/
def step (st : ParseState) (e : Event) : ParseState :=
  match e with
  | .userMessage ts content =>
      { st with user_messages := st.user_messages ++ [⟨content.take 200, ts, content.length⟩] }
  | .turnStart ts tid =>
      { st with current_turn := some ⟨tid, ts, none, [], 0⟩ }
  | .turnEnd ts =>
      match st.current_turn with
      | some t =>
          { st with turns := st.turns ++ [{ t with endTime := some ts }], current_turn := none }
      | none => st
  | .assistantMessage _ reqs =>
      match st.current_turn with
      | some t => { st with current_turn := some (bumpTurn t reqs) }
      | none => st
  | .compactionStart ts =>
      { st with compactions := st.compactions ++ [⟨ts, none, none, none⟩] }
  | .compactionComplete ts pre succ =>
      { st with compactions := compactionCompleteStep ts pre succ st.compactions }
  | .unhandled _ => st

/-- The function `parse_events`: fold the event loop over the stream. -/
def parse_events (evs : List Event) : ParseState :=
  evs.foldl step initState

/-- The `turns` block of `build_summary`:
`user_turns = len(user_messages)`, `total_turns = len(turns)`,
`agent_turns = total_turns - user_turns` (plain integer subtraction). -/
structure TurnsSummary where
  total : ℕ
  user_initiated : ℕ
  agent_initiated : ℤ
deriving DecidableEq

def turns_summary (st : ParseState) : TurnsSummary :=
  ⟨st.turns.length, st.user_messages.length,
    (st.turns.length : ℤ) - (st.user_messages.length : ℤ)⟩

/-- Projection of an event to its turn-marker nature: `some true` for a
turn start, `some false` for a turn end, `none` otherwise. -/
def turnMarker : Event → Option Bool
  | .turnStart _ _ => some true
  | .turnEnd _ => some false
  | _ => none

def turnMarkers (evs : List Event) : List Bool :=
  evs.filterMap turnMarker

/-- The marker sequence of `n` well-paired turns: start, end, repeated. -/
def pairSeq : ℕ → List Bool
  | 0 => []
  | n + 1 => true :: false :: pairSeq n

/-- Modelled from the claim's words for comparison with
`compactionCompleteStep`: attach the completion data to the most recently
opened compaction entry that is still unterminated, leaving every other
entry unchanged. -/
def attachMostRecentOpenAux (ts : String) (pre : Option ℤ) (succ : Bool) :
    List Compaction → List Compaction
  | [] => []
  | c :: rest =>
      if c.endTime = none then
        { c with endTime := some ts, preTokens := pre, success := some succ } :: rest
      else c :: attachMostRecentOpenAux ts pre succ rest

def attachMostRecentOpen (ts : String) (pre : Option ℤ) (succ : Bool)
    (l : List Compaction) : List Compaction :=
  (attachMostRecentOpenAux ts pre succ l.reverse).reverse

/-! ## Dev-loop action finalization (`tool.execution_complete` handler)

Result text is processed character by character (`List Char`): lowercase
substring matching against fixed phrase lists, plus two regular-expression
searches carried out verbatim (leftmost match; the greedy classes are
followed by literals outside the class, so maximal munch is exact). -/

def isDigitB (c : Char) : Bool := '0' ≤ c && c ≤ '9'

/-- Python's `\s` over the ASCII range: space, tab, LF, CR, VT, FF. -/
def isSpaceB (c : Char) : Bool :=
  c == ' ' || c == '\t' || c == '\n' || c == '\r' || c == Char.ofNat 11 || c == Char.ofNat 12

/-- ASCII lowercasing, as Python `str.lower` acts on these logs. -/
def asciiLower (c : Char) : Char :=
  if 'A' ≤ c && c ≤ 'Z' then Char.ofNat (c.toNat + 32) else c

def lowerStr (s : List Char) : List Char := s.map asciiLower

/-- Python's substring containment `needle in hay`. -/
def isSubstrOf : List Char → List Char → Bool
  | needle, [] => needle.isEmpty
  | needle, c :: rest => needle.isPrefixOf (c :: rest) || isSubstrOf needle rest

/-- Numeric value of a digit run (`int` applied to a `\d+` group). -/
def digitsVal (ds : List Char) : ℕ :=
  ds.foldl (fun a c => a * 10 + (c.toNat - 48)) 0

/-- The failure-phrase list checked against the lowercased result text. -/
def BUILD_FAIL_PHRASES : List (List Char) :=
  [ "build failed".data, "error(s)".data, "compilation error".data,
    "failed!".data, "error cs".data, "error ts".data, "error:".data,
    "exited with exit code 1".data, "exited with exit code 2".data ]

/-- The test-failure phrase list. -/
def TEST_FAIL_PHRASES : List (List Char) :=
  [ "test run failed".data, "tests failed".data ]

/-- Try to match the regex `(\d+)\s+Error\(s\)` at the start of `l`,
returning the numeric value of the first group. -/
def matchErrorCountAt (l : List Char) : Option ℕ :=
  let ds := l.takeWhile isDigitB
  if ds.isEmpty then none
  else
    let r1 := l.dropWhile isDigitB
    if (r1.takeWhile isSpaceB).isEmpty then none
    else if "Error(s)".data.isPrefixOf (r1.dropWhile isSpaceB) then some (digitsVal ds)
    else none

/-- Python `re.search` for the error-count pattern: leftmost match position wins. -/
def searchErrorCount : List Char → Option ℕ
  | [] => none
  | c :: rest =>
      match matchErrorCountAt (c :: rest) with
      | some n => some n
      | none => searchErrorCount rest

/-- Try to match `Passed!\s*-\s*Failed:\s*(\d+),\s*Passed:\s*(\d+)` at the
start of `l`, returning (failed count, passed count). -/
def matchTestSummaryAt (l : List Char) : Option (ℕ × ℕ) :=
  if "Passed!".data.isPrefixOf l then
    match (l.drop 7).dropWhile isSpaceB with
    | '-' :: r2 =>
        let r3 := r2.dropWhile isSpaceB
        if "Failed:".data.isPrefixOf r3 then
          let r4 := (r3.drop 7).dropWhile isSpaceB
          let ds1 := r4.takeWhile isDigitB
          if ds1.isEmpty then none
          else
            match r4.dropWhile isDigitB with
            | ',' :: r5 =>
                let r6 := r5.dropWhile isSpaceB
                if "Passed:".data.isPrefixOf r6 then
                  let r7 := (r6.drop 7).dropWhile isSpaceB
                  let ds2 := r7.takeWhile isDigitB
                  if ds2.isEmpty then none else some (digitsVal ds1, digitsVal ds2)
                else none
            | _ => none
        else none
    | _ => none
  else none

/-- Python `re.search` for the test pass/fail summary pattern. -/
def searchTestSummary : List Char → Option (ℕ × ℕ)
  | [] => none
  | c :: rest =>
      match matchTestSummaryAt (c :: rest) with
      | some p => some p
      | none => searchTestSummary rest

/-- Dev-loop action classification seeded at `tool.execution_start`. -/
inductive ActKind where
  | build
  | test
deriving DecidableEq

/-- A finalized dev-loop action (an entry of `events["dev_loop"]`). -/
structure DevAct where
  ty : ActKind
  command : String
  startTime : String
  endTime : String
  success : Bool
  test_failed : Option ℕ
  test_passed : Option ℕ
deriving DecidableEq

/-- The outcome computation of the `tool.execution_complete` handler:
`success and not build_failed and not test_failed`, where `build_failed`
starts from the phrase scan and is overwritten by the error-count match
when present, and `test_failed` comes from the summary pattern when it
matches, else from the test-failure phrases.  (The source computes this
identically for build- and test-classified actions.) -/
def dev_loop_success (success : Bool) (result : List Char) : Bool :=
  let result_lower := lowerStr result
  let build_failed :=
    match searchErrorCount result with
    | some n => decide (0 < n)
    | none => BUILD_FAIL_PHRASES.any (fun p => isSubstrOf p result_lower)
  let test_failed :=
    match searchTestSummary result with
    | some fp => decide (0 < fp.1)
    | none => TEST_FAIL_PHRASES.any (fun p => isSubstrOf p result_lower)
  success && !build_failed && !test_failed

/-- Finalize a pending dev-loop action on `tool.execution_complete`. -/
def finalize_dev_action (ty : ActKind) (command startTime : String)
    (success : Bool) (result : List Char) (ts : String) : DevAct :=
  { ty := ty, command := command, startTime := startTime, endTime := ts,
    success := dev_loop_success success result,
    test_failed := (searchTestSummary result).map (fun p => p.1),
    test_passed := (searchTestSummary result).map (fun p => p.2) }

/-- Modelled from the claim's words for comparison with
`finalize_dev_action`: the pass/fail summary pattern is parsed only for
actions classified as test; the error-count pattern takes precedence over
phrase matching. -/
def claim_outcome (ty : ActKind) (success : Bool) (result : List Char) : Bool :=
  let result_lower := lowerStr result
  let phrase_failed :=
    (BUILD_FAIL_PHRASES ++ TEST_FAIL_PHRASES).any (fun p => isSubstrOf p result_lower)
  let failed :=
    match searchErrorCount result with
    | some n => decide (0 < n)
    | none => phrase_failed
  let test_failed :=
    if ty = ActKind.test then
      match searchTestSummary result with
      | some fp => decide (0 < fp.1)
      | none => false
    else false
  success && !failed && !test_failed

/-! ## DevLoopAnalyzer (fix cycles and redundant builds) -/

/-- A fix-cycle record as emitted by `build_summary`. -/
structure FixCycle where
  failures : ℕ
  first_failure : String
  resolution : Option String
  command_preview : String
deriving DecidableEq

/-- The fix-cycle record built from an accumulated failure run. -/
def mkFixCycle (cur : List DevAct) (res : Option String) : FixCycle :=
  { failures := cur.length,
    first_failure := match cur with | [] => "" | c :: _ => c.startTime,
    resolution := res,
    command_preview := (match cur with | [] => "" | c :: _ => c.command).take 100 }

/-- The fix-cycle scan of `build_summary`: accumulate consecutive failing
builds into `cur`; a success flushes a run of length ≥ 2, and a trailing
run of length ≥ 2 is flushed with an absent resolution. -/
def fcLoop (cur : List DevAct) : List DevAct → List FixCycle
  | [] => if 2 ≤ cur.length then [mkFixCycle cur none] else []
  | b :: rest =>
      if b.success then
        (if 2 ≤ cur.length then [mkFixCycle cur (some b.startTime)] else []) ++ fcLoop [] rest
      else fcLoop (cur ++ [b]) rest

def fix_cycles (builds : List DevAct) : List FixCycle :=
  fcLoop [] builds

/-- The redundancy condition of `build_summary` for a build `b` with
immediately preceding build `p`: `b` succeeded, the two command texts
truncated to 80 characters agree, and no edit/create completion timestamp
lies strictly between `p`'s end time and `b`'s start time. -/
def isRedundantPair (edits : List String) (p b : DevAct) : Bool :=
  b.success && (p.command.take 80 == b.command.take 80)
    && !(edits.any (fun et => decide (p.endTime < et) && decide (et < b.startTime)))

/-- The redundant-build walk: `prev` is the previous build regardless of
its own outcome. -/
def rbLoop (edits : List String) : Option DevAct → List DevAct → ℕ
  | _, [] => 0
  | none, b :: rest => rbLoop edits (some b) rest
  | some p, b :: rest =>
      (if isRedundantPair edits p b then 1 else 0) + rbLoop edits (some b) rest

/-- The count `redundant_builds` of `build_summary` (the source guards the walk with
`len(builds) >= 2`). -/
def redundant_builds (edits : List String) (builds : List DevAct) : ℕ :=
  if builds.length < 2 then 0 else rbLoop edits none builds

/-! ## TelemetryBlockExtractor (`parse_process_log`, block-collection phase)

The scan over the split lines of the process log, up to (and not
including) the JSON decoding of each collected buffer.  Lines are
`List Char`; the two brace characters are named to keep them out of
string literals. -/

def lbrace : Char := Char.ofNat 123

def rbrace : Char := Char.ofNat 125

def TELEMETRY_MARKER : List Char := "[Telemetry] cli.telemetry:".data

def containsTelemetryMarker (l : List Char) : Bool :=
  isSubstrOf TELEMETRY_MARKER l

def isTsBody (c : Char) : Bool := isDigitB c || c == ':' || c == '.'

/-- Python timestamp stripping: strip a leading
ISO-8601-with-milliseconds timestamp prefix if present.  The greedy class
`[\d:.]+` is followed by the literal `Z`, which is outside the class, so
the match is the maximal class run followed by `Z`, then `\s*`. -/
def stripTimestamp (l : List Char) : List Char :=
  match l with
  | y1 :: y2 :: y3 :: y4 :: '-' :: m1 :: m2 :: '-' :: d1 :: d2 :: 'T' :: rest =>
      if isDigitB y1 && isDigitB y2 && isDigitB y3 && isDigitB y4
          && isDigitB m1 && isDigitB m2 && isDigitB d1 && isDigitB d2 then
        if (rest.takeWhile isTsBody).isEmpty then l
        else
          match rest.dropWhile isTsBody with
          | 'Z' :: r3 => r3.dropWhile isSpaceB
          | _ => l
      else l
  | _ => l

/-- Python `stripped.strip().startswith` with a left-brace argument. -/
def startsBrace (l : List Char) : Bool :=
  match l.dropWhile isSpaceB with
  | c :: _ => c == lbrace
  | [] => false

/-- Python brace counting: count of left braces minus count of right braces. -/
def braceDelta (l : List Char) : ℤ :=
  (l.countP (fun c => c == lbrace) : ℤ) - (l.countP (fun c => c == rbrace) : ℤ)

/-- The ACCUMULATING phase: append each stripped line to the buffer and
stop once the running brace count drops to zero or less, returning the
buffer and the lines after the stopping line. -/
def accumulateBlock (buf : List (List Char)) (bc : ℤ) :
    List (List Char) → List (List Char) × List (List Char)
  | [] => (buf, [])
  | l :: rest =>
      let s := stripTimestamp l
      let bc2 := bc + braceDelta s
      if bc2 ≤ 0 then (buf ++ [s], rest) else accumulateBlock (buf ++ [s]) bc2 rest

/-- The SEEKING_BLOCK phase of the source: skip lines until one whose
stripped form starts with a brace, then accumulate. -/
def seekBlockStart : List (List Char) → List (List Char) × List (List Char)
  | [] => ([], [])
  | l :: rest =>
      let s := stripTimestamp l
      if startsBrace s then
        let bc := braceDelta s
        if bc ≤ 0 then ([s], rest) else accumulateBlock [s] bc rest
      else seekBlockStart rest

/-- The outer marker scan, fueled (the loop consumes at least one line
per iteration, so `fuel = number of lines` suffices). -/
def collectAux : ℕ → List (List Char) → List (List (List Char))
  | 0, _ => []
  | _ + 1, [] => []
  | fuel + 1, l :: rest =>
      if containsTelemetryMarker l then
        let r := seekBlockStart rest
        if r.1.isEmpty then collectAux fuel r.2 else r.1 :: collectAux fuel r.2
      else collectAux fuel rest

/-- Block collection of `parse_process_log`: the list of line buffers the
source would hand to `json.loads`. -/
def collectTelemetryBlocks (ls : List (List Char)) : List (List (List Char)) :=
  collectAux ls.length ls

/-- Modelled from the spec's words (§4.2, SEEKING_BLOCK) for comparison
with `collectTelemetryBlocks`: if the first line after the marker does not
start a block, abandon this marker occurrence and return to
SEEKING_MARKER, resuming the marker scan at that line. -/
def collectSpecAux : ℕ → List (List Char) → List (List (List Char))
  | 0, _ => []
  | _ + 1, [] => []
  | fuel + 1, l :: rest =>
      if containsTelemetryMarker l then
        match rest with
        | [] => []
        | l2 :: rest2 =>
            let s := stripTimestamp l2
            if startsBrace s then
              let bc := braceDelta s
              let r := if bc ≤ 0 then ([s], rest2) else accumulateBlock [s] bc rest2
              if r.1.isEmpty then collectSpecAux fuel r.2 else r.1 :: collectSpecAux fuel r.2
            else collectSpecAux fuel rest
      else collectSpecAux fuel rest

def collectTelemetryBlocksSpec (ls : List (List Char)) : List (List (List Char)) :=
  collectSpecAux ls.length ls

/-! ## Concrete inputs used by counterexamples and witnesses -/

/-- An event stream with two well-paired turns and one user message. -/
def exTwoTurns : List Event :=
  [ Event.turnStart "t1" "a", Event.assistantMessage "t2" ["bash"],
    Event.turnEnd "t3", Event.userMessage "t4" "hi",
    Event.turnStart "t5" "b", Event.turnEnd "t6" ]

/-- An event stream with one user message and no turns. -/
def exOneMessage : List Event :=
  [ Event.userMessage "t0" "hello" ]

/-- Two compaction starts followed by two completions. -/
def exCompactions : List Event :=
  [ Event.compactionStart "t1", Event.compactionStart "t2",
    Event.compactionComplete "t3" (some 100) true,
    Event.compactionComplete "t4" (some 200) true ]

/-- A process log: a marker line, then a non-block line, then a
one-line balanced block. -/
def exTelemetryLines : List (List Char) :=
  [ "[Telemetry] cli.telemetry:".data,
    "unrelated log line".data,
    [lbrace, ' ', rbrace] ]

/-- A result text whose test summary reports one failure. -/
def exTestSummaryResult : List Char :=
  "Passed! - Failed: 1, Passed: 0".data

/-- Build actions for the fix-cycle example: two failures then two
successes, all with the same command text. -/
def exFail1 : DevAct := ⟨ActKind.build, "dotnet build", "s1", "e1", false, none, none⟩

def exFail2 : DevAct := ⟨ActKind.build, "dotnet build", "s2", "e2", false, none, none⟩

def exSucc1 : DevAct := ⟨ActKind.build, "dotnet build", "s3", "e3", true, none, none⟩

def exSucc2 : DevAct := ⟨ActKind.build, "dotnet build", "s4", "e4", true, none, none⟩

/-! ## Lemmas about rounding -/

theorem rhe_intCast (n : ℤ) : rhe (n : ℚ) = n := by
  simp [rhe]

theorem rhe_zero : rhe 0 = 0 := by
  simpa using rhe_intCast 0

/-- Evaluation of `roundTo` when the scaled value is an integer. -/
theorem roundTo_eval (k : ℕ) (x : ℚ) (n : ℤ) (h : x * 10 ^ k = (n : ℚ)) :
    roundTo k x = (n : ℚ) / 10 ^ k := by
  unfold roundTo
  rw [h, rhe_intCast]

theorem rhe_floor_le (x : ℚ) : ⌊x⌋ ≤ rhe x := by
  unfold rhe
  split_ifs <;> omega

theorem rhe_le_floor_add_one (x : ℚ) : rhe x ≤ ⌊x⌋ + 1 := by
  unfold rhe
  split_ifs <;> omega

theorem rhe_mono {x y : ℚ} (h : x ≤ y) : rhe x ≤ rhe y := by
  rcases lt_or_eq_of_le (Int.floor_le_floor h) with hf | hf
  · calc rhe x ≤ ⌊x⌋ + 1 := rhe_le_floor_add_one x
    _ ≤ ⌊y⌋ := by omega
    _ ≤ rhe y := rhe_floor_le y
  · unfold rhe
    rw [hf]
    have hxy : x - ⌊y⌋ ≤ y - ⌊y⌋ := by linarith
    split_ifs <;> first | omega | linarith

theorem roundTo_zero (k : ℕ) : roundTo k 0 = 0 := by
  simp [roundTo, rhe_zero]

theorem roundTo_mono (k : ℕ) {x y : ℚ} (h : x ≤ y) : roundTo k x ≤ roundTo k y := by
  unfold roundTo
  have hp : (0 : ℚ) < 10 ^ k := by positivity
  have h2 : rhe (x * 10 ^ k) ≤ rhe (y * 10 ^ k) :=
    rhe_mono (mul_le_mul_of_nonneg_right h (le_of_lt hp))
  exact (div_le_div_iff_of_pos_right hp).mpr (by exact_mod_cast h2)

theorem roundTo_nonneg (k : ℕ) {x : ℚ} (h : 0 ≤ x) : 0 ≤ roundTo k x := by
  have := roundTo_mono k h
  rwa [roundTo_zero] at this

/-! ## Lemmas about the price table -/

theorem pricing_nonneg (model : String) :
    0 ≤ (pricingFor model).input ∧ 0 ≤ (pricingFor model).output
      ∧ 0 ≤ (pricingFor model).cached_input := by
  have htab : ∀ q ∈ MODEL_PRICING,
      0 ≤ q.2.input ∧ 0 ≤ q.2.output ∧ 0 ≤ q.2.cached_input := by
    intro q hq
    fin_cases hq <;> norm_num
  unfold pricingFor
  cases h : MODEL_PRICING.find? (fun p => p.1 == model) with
  | none => refine ⟨?_, ?_, ?_⟩ <;> norm_num [DEFAULT_PRICING]
  | some p => exact htab p (List.mem_of_find?_eq_some h)

/-- One cost summand is monotone in its token factor. -/
theorem cost_term_mono {a b r : ℚ} (hr : 0 ≤ r) (h : a ≤ b) :
    a * r / 1000000 ≤ b * r / 1000000 := by
  apply (div_le_div_iff_of_pos_right (by norm_num)).mpr
  exact mul_le_mul_of_nonneg_right h hr

/-! ## C1: cost non-negativity and monotonicity -/

/-- C1 (amended): for every model identifier and all non-negative token
counts, `compute_cost` is non-negative, and it is monotonically
non-decreasing in the input and output token counts holding the model and
the other counts fixed.  (Monotonicity in the cache-read count fails; see
the counterexample.) -/
theorem c1_cost_nonneg_mono (model : String) (i ii o oo c : ℤ) :
    (0 ≤ i → 0 ≤ o → 0 ≤ c → 0 ≤ compute_cost i o c model)
    ∧ (i ≤ ii → compute_cost i o c model ≤ compute_cost ii o c model)
    ∧ (o ≤ oo → compute_cost i o c model ≤ compute_cost i oo c model) := by
  obtain ⟨hri, hro, hrc⟩ := pricing_nonneg model
  have hfresh : ∀ a b : ℤ, (0 : ℚ) ≤ ((max 0 (a - b) : ℤ) : ℚ) := by
    intro a b
    exact_mod_cast le_max_left 0 (a - b)
  simp only [compute_cost]
  refine ⟨?_, ?_, ?_⟩
  · intro _ ho hc
    apply roundTo_nonneg
    have h1 : (0 : ℚ) ≤ ((max 0 (i - c) : ℤ) : ℚ) * (pricingFor model).input / 1000000 := by
      apply div_nonneg (mul_nonneg (hfresh i c) hri) (by norm_num)
    have h2 : (0 : ℚ) ≤ (c : ℚ) * (pricingFor model).cached_input / 1000000 := by
      apply div_nonneg (mul_nonneg (by exact_mod_cast hc) hrc) (by norm_num)
    have h3 : (0 : ℚ) ≤ (o : ℚ) * (pricingFor model).output / 1000000 := by
      apply div_nonneg (mul_nonneg (by exact_mod_cast ho) hro) (by norm_num)
    exact add_nonneg (add_nonneg h1 h2) h3
  · intro h
    apply roundTo_mono
    have hm : ((max 0 (i - c) : ℤ) : ℚ) ≤ ((max 0 (ii - c) : ℤ) : ℚ) := by
      exact_mod_cast max_le_max le_rfl (sub_le_sub_right h c)
    exact add_le_add (add_le_add (cost_term_mono hri hm) le_rfl) le_rfl
  · intro h
    apply roundTo_mono
    have hm : (o : ℚ) ≤ (oo : ℚ) := by exact_mod_cast h
    exact add_le_add le_rfl (cost_term_mono hro hm)

/-- C1 witness: the amended theorem applied at concrete inputs. -/
theorem c1_cost_nonneg_mono_witness :
    0 ≤ compute_cost 10 5 2 "gpt-5.2" ∧
      compute_cost 10 5 2 "gpt-5.2" ≤ compute_cost 12 5 2 "gpt-5.2" ∧
      compute_cost 10 5 2 "gpt-5.2" ≤ compute_cost 10 7 2 "gpt-5.2" :=
  ⟨(c1_cost_nonneg_mono "gpt-5.2" 10 12 5 7 2).1 (by norm_num) (by norm_num) (by norm_num),
   (c1_cost_nonneg_mono "gpt-5.2" 10 12 5 7 2).2.1 (by norm_num),
   (c1_cost_nonneg_mono "gpt-5.2" 10 12 5 7 2).2.2 (by norm_num)⟩

/-- C1 counterexample: raising the cache-read count from 0 to 200 (model
and the other counts fixed) strictly lowers the cost, so `compute_cost`
is not monotonically non-decreasing in the cache-read token count. -/
theorem c1_counterexample :
    compute_cost 1000 0 0 "claude-sonnet-4.5" = 3 / 1000
    ∧ compute_cost 1000 0 200 "claude-sonnet-4.5" = 123 / 50000
    ∧ compute_cost 1000 0 200 "claude-sonnet-4.5" < compute_cost 1000 0 0 "claude-sonnet-4.5" := by
  have hp : pricingFor "claude-sonnet-4.5" = ⟨3, 15, 3/10⟩ := rfl
  have e1 : compute_cost 1000 0 0 "claude-sonnet-4.5" = 3 / 1000 := by
    simp only [compute_cost, hp]
    rw [roundTo_eval 6 _ 3000 (by norm_num)]
    norm_num
  have e2 : compute_cost 1000 0 200 "claude-sonnet-4.5" = 123 / 50000 := by
    simp only [compute_cost, hp]
    rw [roundTo_eval 6 _ 2460 (by norm_num)]
    norm_num
  refine ⟨e1, e2, ?_⟩
  rw [e1, e2]
  norm_num

/-! ## C6: the cost formula -/

/-- C6: for every model identifier (known or fallback) and all
non-negative token counts, `compute_cost` returns exactly the
specification's formula
`(max(0, input-cacheRead)*inputRate + cacheRead*cachedInputRate + output*outputRate) / 1,000,000`
rounded to 6 decimal places, and the cost of zero tokens is zero. -/
theorem c6_cost_formula (model : String) (i o c : ℤ) :
    (0 ≤ i → 0 ≤ o → 0 ≤ c → compute_cost i o c model = cost_spec_formula i o c model)
    ∧ compute_cost 0 0 0 model = 0 := by
  constructor
  · intro _ _ _
    simp only [compute_cost, cost_spec_formula]
    rw [div_add_div_same, div_add_div_same]
  · have h0 : ((max 0 ((0:ℤ) - 0) : ℤ) : ℚ) = 0 := by norm_num
    simp only [compute_cost, h0]
    norm_num [roundTo_zero]

/-- C6 witness: the theorem applied at concrete inputs. -/
theorem c6_cost_formula_witness :
    compute_cost 1000 100 200 "claude-sonnet-4.5"
        = cost_spec_formula 1000 100 200 "claude-sonnet-4.5"
    ∧ compute_cost 0 0 0 "some-unknown-model" = 0 :=
  ⟨(c6_cost_formula "claude-sonnet-4.5" 1000 100 200).1 (by norm_num) (by norm_num) (by norm_num),
   (c6_cost_formula "some-unknown-model" 0 0 0).2⟩

/-! ## C7: cache hit rate -/

/-- C7: the reported `cache_hit_rate_pct` is 0 whenever the total
input-token sum is 0, regardless of the cache-read totals (the division
is guarded), and otherwise equals total cache-read tokens divided by
total input tokens times 100, rounded to 1 decimal place. -/
theorem c7_cache_hit_rate (calls : List LlmCall) :
    (total_input_tokens calls = 0 → cache_hit_rate_pct calls = 0)
    ∧ (total_input_tokens calls ≠ 0 →
        cache_hit_rate_pct calls =
          roundTo 1 ((total_cache_read_tokens calls : ℚ)
            / (total_input_tokens calls : ℚ) * 100)) := by
  constructor
  · intro h
    simp [cache_hit_rate_pct, cache_hit_rate, h, roundTo_zero]
  · intro h
    have hpos : 0 < total_input_tokens calls := Nat.pos_of_ne_zero h
    simp [cache_hit_rate_pct, cache_hit_rate, hpos]

/-- C7 witness: a call list with zero input tokens but 500 cache-read
tokens reports a 0 hit rate; a non-degenerate list reports the rounded
ratio. -/
theorem c7_cache_hit_rate_witness :
    cache_hit_rate_pct [⟨"m", "i", "a", 0, 0, 500, 0, 0⟩] = 0
    ∧ cache_hit_rate_pct [⟨"m", "i", "a", 200, 0, 50, 0, 0⟩] =
        roundTo 1 ((total_cache_read_tokens [⟨"m", "i", "a", 200, 0, 50, 0, 0⟩] : ℚ)
          / (total_input_tokens [⟨"m", "i", "a", 200, 0, 50, 0, 0⟩] : ℚ) * 100) :=
  ⟨(c7_cache_hit_rate [⟨"m", "i", "a", 0, 0, 500, 0, 0⟩]).1 (by decide),
   (c7_cache_hit_rate [⟨"m", "i", "a", 200, 0, 50, 0, 0⟩]).2 (by decide)⟩

/-! ## Lemmas about the event-parser turn machinery -/

theorem turnMarker_eq_some_true {e : Event} (h : turnMarker e = some true) :
    ∃ ts tid, e = Event.turnStart ts tid := by
  cases e <;> simp_all [turnMarker]

theorem turnMarker_eq_some_false {e : Event} (h : turnMarker e = some false) :
    ∃ ts, e = Event.turnEnd ts := by
  cases e <;> simp_all [turnMarker]

/-- A non-turn-marker event leaves the turn list and the open/closed
status of the current turn unchanged. -/
theorem step_turns_of_nonmarker (st : ParseState) (e : Event) (h : turnMarker e = none) :
    (step st e).turns = st.turns
      ∧ (step st e).current_turn.isSome = st.current_turn.isSome := by
  cases e with
  | userMessage ts content => simp [step]
  | turnStart ts tid => simp [turnMarker] at h
  | turnEnd ts => simp [turnMarker] at h
  | assistantMessage ts reqs =>
      cases hc : st.current_turn with
      | none => simp [step, hc]
      | some t => simp [step, hc]
  | compactionStart ts => simp [step]
  | compactionComplete ts pre succ => simp [step]
  | unhandled ts => simp [step]

/-- Invariant of the turn machine: if the remaining markers form `n` full
pairs (prefixed by a pending end marker when a turn is open), then the
fold closes exactly `n` more turns (plus the pending one). -/
theorem parse_turns_aux (evs : List Event) :
    ∀ (st : ParseState) (n : ℕ),
      turnMarkers evs = (if st.current_turn.isSome then false :: pairSeq n else pairSeq n) →
      (evs.foldl step st).turns.length
        = st.turns.length + n + (if st.current_turn.isSome then 1 else 0) := by
  induction evs with
  | nil =>
      intro st n h
      by_cases hs : st.current_turn.isSome
      · rw [if_pos hs] at h
        simp [turnMarkers] at h
      · rw [if_neg hs] at h
        cases n with
        | zero => simp [if_neg hs]
        | succ m => simp [turnMarkers, pairSeq] at h
  | cons e rest ih =>
      intro st n h
      cases he : turnMarker e with
      | none =>
          have hm : turnMarkers (e :: rest) = turnMarkers rest := by
            simp [turnMarkers, List.filterMap_cons, he]
          rw [hm] at h
          obtain ⟨ht, hs⟩ := step_turns_of_nonmarker st e he
          have hrec := ih (step st e) n (by rw [hs]; exact h)
          simp only [List.foldl_cons]
          rw [hrec, ht, hs]
      | some b =>
          cases b with
          | true =>
              obtain ⟨ts, tid, rfl⟩ := turnMarker_eq_some_true he
              have hm : turnMarkers (Event.turnStart ts tid :: rest)
                  = true :: turnMarkers rest := by
                simp [turnMarkers, List.filterMap_cons, turnMarker]
              rw [hm] at h
              by_cases hs : st.current_turn.isSome
              · rw [if_pos hs] at h
                simp at h
              · rw [if_neg hs] at h
                cases n with
                | zero => simp [pairSeq] at h
                | succ m =>
                    rw [pairSeq] at h
                    have h2 : turnMarkers rest = false :: pairSeq m := by
                      exact (List.cons.injEq _ _ _ _ ▸ h).2
                    have hstep : (step st (Event.turnStart ts tid)).current_turn.isSome
                        = true := by simp [step]
                    have hturns : (step st (Event.turnStart ts tid)).turns = st.turns := by
                      simp [step]
                    have hrec := ih (step st (Event.turnStart ts tid)) m
                      (by rw [hstep, if_pos rfl]; exact h2)
                    simp only [List.foldl_cons]
                    rw [hrec, hturns, hstep]
                    simp [if_neg hs]
                    omega
          | false =>
              obtain ⟨ts, rfl⟩ := turnMarker_eq_some_false he
              have hm : turnMarkers (Event.turnEnd ts :: rest)
                  = false :: turnMarkers rest := by
                simp [turnMarkers, List.filterMap_cons, turnMarker]
              rw [hm] at h
              by_cases hs : st.current_turn.isSome
              · rw [if_pos hs] at h
                have h2 : turnMarkers rest = pairSeq n := by
                  exact (List.cons.injEq _ _ _ _ ▸ h).2
                obtain ⟨t, ht⟩ := Option.isSome_iff_exists.mp hs
                have hstep : (step st (Event.turnEnd ts)).current_turn = none := by
                  simp [step, ht]
                have hturns : (step st (Event.turnEnd ts)).turns
                    = st.turns ++ [{ t with endTime := some ts }] := by
                  simp [step, ht]
                have hrec := ih (step st (Event.turnEnd ts)) n
                  (by rw [hstep]; simpa using h2)
                simp only [List.foldl_cons]
                rw [hrec, hturns, hstep]
                simp [List.length_append, if_pos hs]
                omega
              · rw [if_neg hs] at h
                cases n with
                | zero => simp [pairSeq] at h
                | succ m =>
                    rw [pairSeq] at h
                    simp at h

/-! ## C5: well-paired turn counting -/

/-- C5: for every event stream in which each turn-start is paired with a
later turn-end before any further turn-start, `turns.total` equals the
number of pairs and `agent_initiated = total − user_initiated`; moreover
a turn is appended to the turn list only on an explicit end marker, and a
turn start installs a fresh open turn (discarding any previous one, which
is therefore never emitted). -/
theorem c5_turn_pairing :
    (∀ evs n, turnMarkers evs = pairSeq n →
        (turns_summary (parse_events evs)).total = n
        ∧ (turns_summary (parse_events evs)).agent_initiated
            = (n : ℤ) - ((parse_events evs).user_messages.length : ℤ))
    ∧ (∀ st e, turnMarker e ≠ some false → (step st e).turns = st.turns)
    ∧ (∀ st ts tid,
        (step st (Event.turnStart ts tid)).current_turn = some ⟨tid, ts, none, [], 0⟩
        ∧ (step st (Event.turnStart ts tid)).turns = st.turns) := by
  refine ⟨?_, ?_, ?_⟩
  · intro evs n h
    have hinit : (initState.current_turn).isSome = false := by simp [initState]
    have htot := parse_turns_aux evs initState n (by rw [hinit]; simpa using h)
    rw [hinit] at htot
    have h2 : (parse_events evs).turns.length = n := by
      simpa [parse_events, initState] using htot
    constructor
    · simpa [turns_summary] using h2
    · simp only [turns_summary]
      rw [h2]
  · intro st e he
    cases e with
    | userMessage ts content => simp [step]
    | turnStart ts tid => simp [step]
    | turnEnd ts => simp [turnMarker] at he
    | assistantMessage ts reqs =>
        cases hc : st.current_turn with
        | none => simp [step, hc]
        | some t => simp [step, hc]
    | compactionStart ts => simp [step]
    | compactionComplete ts pre succ => simp [step]
    | unhandled ts => simp [step]
  · intro st ts tid
    exact ⟨by simp [step], by simp [step]⟩

/-- C5 witness: the paired stream `exTwoTurns` (2 pairs, 1 user message). -/
theorem c5_turn_pairing_witness :
    (turns_summary (parse_events exTwoTurns)).total = 2
    ∧ (turns_summary (parse_events exTwoTurns)).agent_initiated
        = (2 : ℤ) - ((parse_events exTwoTurns).user_messages.length : ℤ)
    ∧ (step initState (Event.userMessage "t" "x")).turns = initState.turns
    ∧ (step initState (Event.turnStart "t" "id")).current_turn
        = some ⟨"id", "t", none, [], 0⟩ :=
  ⟨(c5_turn_pairing.1 exTwoTurns 2 (by decide)).1,
   (c5_turn_pairing.1 exTwoTurns 2 (by decide)).2,
   c5_turn_pairing.2.1 initState (Event.userMessage "t" "x") (by decide),
   (c5_turn_pairing.2.2 initState "t" "id").1⟩

/-! ## C10: agent-initiated turns can go negative -/

/-- C10: `turns.user_initiated` is the number of user-message records,
`turns.agent_initiated` is the completed-turn count minus that number as
plain integer subtraction with no clamping, and on a stream with one user
message and no completed turn the reported `agent_initiated` is `-1`. -/
theorem c10_agent_initiated :
    (∀ evs,
        (turns_summary (parse_events evs)).user_initiated
            = (parse_events evs).user_messages.length
        ∧ (turns_summary (parse_events evs)).agent_initiated
            = ((parse_events evs).turns.length : ℤ)
                - ((parse_events evs).user_messages.length : ℤ))
    ∧ (turns_summary (parse_events exOneMessage)).agent_initiated = -1 :=
  ⟨fun _ => ⟨rfl, rfl⟩, by decide⟩

/-! ## C4: compaction completion attachment -/

/-- C4 (amended): a compaction-complete event attaches its end time,
pre-compaction token count and success flag to the LAST compaction entry
precisely when that entry is unterminated, leaving every earlier entry
unchanged; otherwise (no entry, or last entry already terminated) it has
no effect — even when an earlier entry is still unterminated. -/
theorem c4_compaction_complete (evs : List Event) (ts : String)
    (pre : Option ℤ) (succ : Bool) :
    ((parse_events (evs ++ [Event.compactionComplete ts pre succ])).compactions
      = (match ((parse_events evs).compactions).getLast? with
         | none => (parse_events evs).compactions
         | some last =>
             if last.endTime = none then
               ((parse_events evs).compactions).dropLast
                 ++ [{ last with endTime := some ts, preTokens := pre, success := some succ }]
             else (parse_events evs).compactions))
    ∧ ∀ k, k + 1 < ((parse_events evs).compactions).length →
        ((parse_events (evs ++ [Event.compactionComplete ts pre succ])).compactions)[k]?
          = ((parse_events evs).compactions)[k]? := by
  have hsplit : parse_events (evs ++ [Event.compactionComplete ts pre succ])
      = step (parse_events evs) (Event.compactionComplete ts pre succ) := by
    simp [parse_events, List.foldl_append]
  constructor
  · rw [hsplit]
    simp [step, compactionCompleteStep]
  · intro k hk
    rw [hsplit]
    simp only [step, compactionCompleteStep]
    cases hl : ((parse_events evs).compactions).getLast? with
    | none => rfl
    | some last =>
        dsimp only
        by_cases he : last.endTime = none
        · rw [if_pos he]
          have hlen : ((parse_events evs).compactions).dropLast.length
              = ((parse_events evs).compactions).length - 1 := by
            simp [List.length_dropLast]
          have hklt : k < ((parse_events evs).compactions).dropLast.length := by omega
          rw [List.getElem?_append_left hklt]
          rw [List.dropLast_eq_take, List.getElem?_take]
          rw [if_pos (by omega)]
        · rw [if_neg he]

/-- C4 witness: the amended theorem applied to a stream of two starts
followed by one completion — the first entry is untouched. -/
theorem c4_compaction_complete_witness :
    ((parse_events ([Event.compactionStart "t1", Event.compactionStart "t2"]
        ++ [Event.compactionComplete "t3" (some 100) true])).compactions)[0]?
      = ((parse_events [Event.compactionStart "t1",
          Event.compactionStart "t2"]).compactions)[0]? :=
  (c4_compaction_complete [Event.compactionStart "t1", Event.compactionStart "t2"]
    "t3" (some 100) true).2 0 (by decide)

/-- C4 counterexample: on `exCompactions` (start, start, complete,
complete) the second completion leaves the still-unterminated first entry
untouched, whereas attaching to the most recently opened unterminated
entry — as the claim states — would terminate it. -/
theorem c4_counterexample :
    (parse_events exCompactions).compactions
      = [⟨"t1", none, none, none⟩, ⟨"t2", some "t3", some 100, some true⟩]
    ∧ attachMostRecentOpen "t4" (some 200) true
        [⟨"t1", none, none, none⟩, ⟨"t2", some "t3", some 100, some true⟩]
      = [⟨"t1", some "t4", some 200, some true⟩, ⟨"t2", some "t3", some 100, some true⟩] := by
  refine ⟨by decide, by decide⟩

/-! ## C3: dev-loop outcome finalization -/

/-- C3 (amended): for every tool-execution-complete event finalizing a
pending dev-loop action, the outcome is independent of the action's
build/test classification and equals `dev_loop_success`; with no failure
signal in the result text it is the reported success flag; the explicit
error-count pattern takes precedence over the phrase matching; and the
pass/fail summary pattern is parsed for all actions (not only those
classified as test), overriding the outcome to failure iff the parsed
failure count is positive. -/
theorem c3_dev_loop_outcome (ty ty2 : ActKind) (cmd s0 : String) (success : Bool)
    (result : List Char) (ts : String) :
    ((finalize_dev_action ty cmd s0 success result ts).success
        = (finalize_dev_action ty2 cmd s0 success result ts).success)
    ∧ ((finalize_dev_action ty cmd s0 success result ts).success
        = dev_loop_success success result)
    ∧ (searchErrorCount result = none → searchTestSummary result = none →
        (BUILD_FAIL_PHRASES ++ TEST_FAIL_PHRASES).all
            (fun p => !isSubstrOf p (lowerStr result)) = true →
        (finalize_dev_action ty cmd s0 success result ts).success = success)
    ∧ (∀ n, searchErrorCount result = some n → searchTestSummary result = none →
        TEST_FAIL_PHRASES.all (fun p => !isSubstrOf p (lowerStr result)) = true →
        (finalize_dev_action ty cmd s0 success result ts).success
            = (success && !(decide (0 < n))))
    ∧ (∀ f p, searchTestSummary result = some (f, p) → searchErrorCount result = none →
        BUILD_FAIL_PHRASES.all (fun q => !isSubstrOf q (lowerStr result)) = true →
        (finalize_dev_action ty cmd s0 success result ts).success
            = (success && !(decide (0 < f)))) := by
  have hbuild : ∀ h : (BUILD_FAIL_PHRASES.all (fun q => !isSubstrOf q (lowerStr result))) = true,
      BUILD_FAIL_PHRASES.any (fun q => isSubstrOf q (lowerStr result)) = false := by
    intro h
    rw [List.any_eq_false]
    intro q hq
    simpa using List.all_eq_true.mp h q hq
  have htest : ∀ h : (TEST_FAIL_PHRASES.all (fun q => !isSubstrOf q (lowerStr result))) = true,
      TEST_FAIL_PHRASES.any (fun q => isSubstrOf q (lowerStr result)) = false := by
    intro h
    rw [List.any_eq_false]
    intro q hq
    simpa using List.all_eq_true.mp h q hq
  refine ⟨rfl, rfl, ?_, ?_, ?_⟩
  · intro he hts hall
    have hb := hbuild (by
      rw [List.all_eq_true]
      intro q hq
      exact List.all_eq_true.mp hall q (List.mem_append_left _ hq))
    have ht := htest (by
      rw [List.all_eq_true]
      intro q hq
      exact List.all_eq_true.mp hall q (List.mem_append_right _ hq))
    show dev_loop_success success result = success
    simp only [dev_loop_success, he, hts, hb, ht]
    simp
  · intro n he hts hall
    have ht := htest hall
    show dev_loop_success success result = _
    simp only [dev_loop_success, he, hts, ht]
    simp
  · intro f p hts he hall
    have hb := hbuild hall
    show dev_loop_success success result = _
    simp only [dev_loop_success, he, hts, hb]
    simp

/-- C3 witness: the amended theorem applied to concrete result texts. -/
theorem c3_dev_loop_outcome_witness :
    ((finalize_dev_action ActKind.build "b" "s" true "all good".data "e").success
        = (finalize_dev_action ActKind.test "b" "s" true "all good".data "e").success)
    ∧ (finalize_dev_action ActKind.build "b" "s" true "all good".data "e").success = true
    ∧ (finalize_dev_action ActKind.build "b" "s" true "build failed 0 Error(s)".data "e").success
        = (true && !(decide ((0 : ℕ) < 0)))
    ∧ (finalize_dev_action ActKind.build "b" "s" true exTestSummaryResult "e").success
        = (true && !(decide ((0 : ℕ) < 1))) :=
  ⟨(c3_dev_loop_outcome ActKind.build ActKind.test "b" "s" true "all good".data "e").1,
   (c3_dev_loop_outcome ActKind.build ActKind.test "b" "s" true "all good".data "e").2.2.1
     (by decide) (by decide) (by decide),
   (c3_dev_loop_outcome ActKind.build ActKind.test "b" "s" true
      "build failed 0 Error(s)".data "e").2.2.2.1 0 (by decide) (by decide) (by decide),
   (c3_dev_loop_outcome ActKind.build ActKind.test "b" "s" true
      exTestSummaryResult "e").2.2.2.2 1 0 (by decide) (by decide) (by decide)⟩

/-- C3 counterexample: a BUILD-classified action whose result text is
`Passed! - Failed: 1, Passed: 0` (reported success flag true, no failure
phrase, no error-count match) is finalized as a failure by the source,
while the claim — which parses the summary pattern only for test
actions — would leave it successful. -/
theorem c3_counterexample :
    (finalize_dev_action ActKind.build "dotnet build" "t1" true exTestSummaryResult "t2").success
        = false
    ∧ claim_outcome ActKind.build true exTestSummaryResult = true := by
  refine ⟨by decide, by decide⟩

/-! ## C8: redundant-build characterization -/

/-- The walk with a known previous build counts exactly the redundant
consecutive pairs of the remaining list. -/
theorem rbLoop_some_eq_countP (edits : List String) (l : List DevAct) :
    ∀ p : DevAct,
      rbLoop edits (some p) l
        = ((p :: l).zip l).countP (fun q => isRedundantPair edits q.1 q.2) := by
  induction l with
  | nil => intro p; rfl
  | cons b t ih =>
      intro p
      simp only [rbLoop, List.zip_cons_cons, List.countP_cons, ih b]
      by_cases h : isRedundantPair edits p b
      · simp [h]
        omega
      · simp [h]

/-- C8: a build is counted as redundant iff it is successful, its command
truncated to 80 characters equals the immediately preceding build's
truncated command, and no edit/create completion timestamp lies strictly
between the preceding build's end and the current build's start:
`redundant_builds` equals the number of consecutive pairs satisfying
`isRedundantPair`. -/
theorem c8_redundant_builds (edits : List String) (builds : List DevAct) :
    redundant_builds edits builds
      = (builds.zip builds.tail).countP (fun q => isRedundantPair edits q.1 q.2) := by
  cases builds with
  | nil => rfl
  | cons b t =>
      cases t with
      | nil => rfl
      | cons b2 t2 =>
          have hlen : ¬ (b :: b2 :: t2).length < 2 := by simp
          simp only [redundant_builds, if_neg hlen, rbLoop]
          rw [rbLoop_some_eq_countP edits t2 b2]
          simp only [List.tail_cons, List.zip_cons_cons, List.countP_cons]
          by_cases h : isRedundantPair edits b b2 <;> (simp [h]; try omega)

/-! ## C9: fix-cycle characterization -/

/-- Accumulating an all-failing run just moves it into the accumulator. -/
theorem fcLoop_append_failing (run : List DevAct) :
    ∀ (cur rest : List DevAct), (∀ b ∈ run, b.success = false) →
      fcLoop cur (run ++ rest) = fcLoop (cur ++ run) rest := by
  induction run with
  | nil => intro cur rest _; simp
  | cons b t ih =>
      intro cur rest h
      have hb : b.success = false := h b (by simp)
      simp only [List.cons_append, fcLoop, hb, Bool.false_eq_true, if_false, List.append_eq]
      rw [ih (cur ++ [b]) rest (fun x hx => h x (by simp [hx]))]
      simp [List.append_assoc]

/-- C9: fix-cycle detection emits one FixCycle per maximal run of ≥ 2
consecutive failing builds: a success ending such a run yields a cycle
spanning the first failure's start time to the success's start time, a
trailing unresolved run yields a cycle with an absent resolution time,
and shorter runs yield nothing. -/
theorem c9_fix_cycles :
    (∀ (run : List DevAct) (s : DevAct) (rest : List DevAct),
        (∀ b ∈ run, b.success = false) → s.success = true →
        fix_cycles (run ++ s :: rest)
          = (if 2 ≤ run.length then [mkFixCycle run (some s.startTime)] else [])
              ++ fix_cycles rest)
    ∧ (∀ run : List DevAct, (∀ b ∈ run, b.success = false) →
        fix_cycles run = if 2 ≤ run.length then [mkFixCycle run none] else []) := by
  constructor
  · intro run s rest hrun hs
    unfold fix_cycles
    rw [fcLoop_append_failing run [] (s :: rest) hrun]
    simp only [List.nil_append, fcLoop, hs, if_true]
  · intro run hrun
    have h := fcLoop_append_failing run [] [] hrun
    simp only [List.append_nil, List.nil_append] at h
    unfold fix_cycles
    rw [h]
    rfl

set_option maxRecDepth 4000 in
/-- C9 witness: on builds `[fail, fail, success, success]` exactly one
FixCycle is emitted, spanning the first failure's start to the first
success's start, with `failures = 2`. -/
theorem c9_fix_cycles_witness :
    fix_cycles [exFail1, exFail2, exSucc1, exSucc2]
      = [mkFixCycle [exFail1, exFail2] (some "s3")] := by
  have h := c9_fix_cycles.1 [exFail1, exFail2] exSucc1 [exSucc2] (by decide) (by decide)
  rw [show ([exFail1, exFail2] ++ exSucc1 :: [exSucc2])
      = [exFail1, exFail2, exSucc1, exSucc2] from rfl] at h
  rw [h]
  decide

/-! ## C2: telemetry block seeking -/

/-- C2 (amended): in the SEEKING_BLOCK state, a line whose stripped form
does not start with `{` is simply skipped — the extractor keeps looking
for a block start on the following lines instead of abandoning the marker
occurrence. -/
theorem c2_seek_block (l : List Char) (rest : List (List Char))
    (h : startsBrace (stripTimestamp l) = false) :
    seekBlockStart (l :: rest) = seekBlockStart rest := by
  simp only [seekBlockStart, h, Bool.false_eq_true, if_false]

/-- C2 witness: the amended theorem applied to a concrete non-block line. -/
theorem c2_seek_block_witness :
    startsBrace (stripTimestamp "unrelated log line".data) = false
    ∧ seekBlockStart ["unrelated log line".data] = seekBlockStart [] :=
  ⟨by decide, c2_seek_block "unrelated log line".data [] (by decide)⟩

/-- C2 counterexample: on a log with a marker line, then a non-block
line, then a balanced one-line block, the source still collects the block
(it does not abandon the marker occurrence), whereas the claimed
behavior — abandoning on the first non-block line — would collect
nothing. -/
theorem c2_counterexample :
    collectTelemetryBlocks exTelemetryLines = [[[lbrace, ' ', rbrace]]]
    ∧ collectTelemetryBlocksSpec exTelemetryLines = [] := by
  refine ⟨by decide, by decide⟩
